import Mathlib

/-!
Verification of the robocluster `Device` event-dispatch and lifecycle engine
(`robocluster/device.py`).

Strings are modelled as `List Char`.  The glob matcher below is translated
from Python's `fnmatch.fnmatch` as used by `Device._receive_task`
(`fnmatch(event, key)`): `*` matches any run of characters, `?` exactly one
character, `[...]` a single character from a set (with `!` negation, a
leading literal `]`, and `a-b` ranges); an unterminated `[` is a literal
`[`; the whole string must match (Python anchors the translated regex with
`\Z`).  Case normalisation (`os.path.normcase`) is the identity on POSIX,
the platform this robotics code targets.
-/

namespace Robocluster

abbrev Str := List Char

/-- Scanner for the body of a bracket class, one character at a time, up to
the closing `]`.  `pending` holds a character that may still become the lower
bound of an `a-b` range; `dash` records that the dash after `pending` has
been consumed.  Items are `(lo, hi)` ranges (a plain character `c` is the
range `(c, c)`), and a trailing `-` right before the closing `]` is a literal
`-`, as in `fnmatch.translate`.  Returns `none` when no closing `]` exists,
in which case the opening `[` is treated as a literal character. -/
def classBodyGo : Option Char → Bool → Str → Option (List (Char × Char) × Str)
  | _, _, [] => none
  | none, _, c :: rest =>
    if c = ']' then some ([], rest)
    else classBodyGo (some c) false rest
  | some a, false, c :: rest =>
    if c = ']' then some ([(a, a)], rest)
    else if c = '-' then classBodyGo (some a) true rest
    else
      match classBodyGo (some c) false rest with
      | some (items, r) => some ((a, a) :: items, r)
      | none => none
  | some a, true, c :: rest =>
    if c = ']' then some ([(a, a), ('-', '-')], rest)
    else
      match classBodyGo none false rest with
      | some (items, r) => some ((a, c) :: items, r)
      | none => none

/-- Parse a bracket class immediately following `[`: an optional leading `!`
negates the class, and a `]` directly after `[` (or after `[!`) is an
ordinary leading class character (it may even start a range), exactly as in
`fnmatch.translate`. -/
def parseClass (p : Str) : Option (Bool × List (Char × Char) × Str) :=
  match p with
  | [] => none
  | a :: rest =>
    if a = '!' then
      match rest with
      | b :: rest' =>
        if b = ']' then
          match classBodyGo (some ']') false rest' with
          | some (items, r) => some (true, items, r)
          | none => none
        else
          match classBodyGo none false (b :: rest') with
          | some (items, r) => some (true, items, r)
          | none => none
      | [] => none
    else if a = ']' then
      match classBodyGo (some ']') false rest with
      | some (items, r) => some (false, items, r)
      | none => none
    else
      match classBodyGo none false (a :: rest) with
      | some (items, r) => some (false, items, r)
      | none => none

/-- Membership of a character in a parsed bracket class. -/
def inClass (items : List (Char × Char)) (c : Char) : Bool :=
  items.any fun ab => decide (ab.1 ≤ c) && decide (c ≤ ab.2)

/-- Fuel-indexed glob matcher (`globMatchF fuel pattern string`); with
`pattern.length + string.length < fuel` the fuel never runs out.  The fuel
makes the definition structurally recursive, hence kernel-reducible. -/
def globMatchF : Nat → Str → Str → Bool
  | 0, _, _ => false
  | fuel + 1, p, s =>
    match p with
    | [] => s.isEmpty
    | c :: p' =>
      if c = '*' then
        globMatchF fuel p' s ||
          (match s with
           | [] => false
           | _ :: s' => globMatchF fuel (c :: p') s')
      else if c = '?' then
        match s with
        | [] => false
        | _ :: s' => globMatchF fuel p' s'
      else if c = '[' then
        match parseClass p' with
        | some (neg, items, p'') =>
          match s with
          | [] => false
          | d :: s' => (inClass items d != neg) && globMatchF fuel p'' s'
        | none =>
          match s with
          | [] => false
          | d :: s' => if d = '[' then globMatchF fuel p' s' else false
      else
        match s with
        | [] => false
        | d :: s' => if d = c then globMatchF fuel p' s' else false

/-- `fnmatch.fnmatch` on POSIX: does the whole string match the glob pattern? -/
def globMatch (p s : Str) : Bool :=
  globMatchF (p.length + s.length + 1) p s

theorem classBodyGo_length :
    ∀ (l : Str) (pending : Option Char) (dash : Bool) {items : List (Char × Char)} {r : Str},
      classBodyGo pending dash l = some (items, r) → r.length < l.length := by
  intro l
  induction l with
  | nil =>
    intro pending dash items r h
    cases pending <;> simp [classBodyGo] at h
  | cons c rest ih =>
    intro pending dash items r h
    match pending, dash with
    | none, dash =>
      simp only [classBodyGo] at h
      by_cases hc : c = ']'
      · rw [if_pos hc] at h
        cases h
        simp
      · rw [if_neg hc] at h
        have := ih (some c) false h
        simp only [List.length_cons]
        omega
    | some a, false =>
      simp only [classBodyGo] at h
      by_cases hc : c = ']'
      · rw [if_pos hc] at h
        cases h
        simp
      · rw [if_neg hc] at h
        by_cases hd : c = '-'
        · rw [if_pos hd] at h
          have := ih (some a) true h
          simp only [List.length_cons]
          omega
        · rw [if_neg hd] at h
          cases hrec : classBodyGo (some c) false rest with
          | none => rw [hrec] at h; cases h
          | some pr =>
            rw [hrec] at h
            cases h
            have := ih (some c) false hrec
            simp only [List.length_cons]
            omega
    | some a, true =>
      simp only [classBodyGo] at h
      by_cases hc : c = ']'
      · rw [if_pos hc] at h
        cases h
        simp
      · rw [if_neg hc] at h
        cases hrec : classBodyGo none false rest with
        | none => rw [hrec] at h; cases h
        | some pr =>
          rw [hrec] at h
          cases h
          have := ih none false hrec
          simp only [List.length_cons]
          omega

theorem parseClass_length :
    ∀ {p : Str} {neg : Bool} {items : List (Char × Char)} {p' : Str},
      parseClass p = some (neg, items, p') → p'.length < p.length := by
  intro p neg items p' h
  match p with
  | [] => simp [parseClass] at h
  | a :: rest =>
    by_cases ha : a = '!'
    · subst ha
      match rest with
      | [] => simp [parseClass] at h
      | b :: rest' =>
        by_cases hb : b = ']'
        · subst hb
          simp only [parseClass, reduceIte] at h
          cases hrec : classBodyGo (some ']') false rest' with
          | none => rw [hrec] at h; simp at h
          | some pr =>
            obtain ⟨items2, r⟩ := pr
            rw [hrec] at h
            simp only [Option.some.injEq, Prod.mk.injEq] at h
            obtain ⟨-, -, hr⟩ := h
            subst hr
            have := classBodyGo_length rest' (some ']') false hrec
            simp only [List.length_cons]
            omega
        · simp only [parseClass, reduceIte, if_neg hb] at h
          cases hrec : classBodyGo none false (b :: rest') with
          | none => rw [hrec] at h; simp at h
          | some pr =>
            obtain ⟨items2, r⟩ := pr
            rw [hrec] at h
            simp only [Option.some.injEq, Prod.mk.injEq] at h
            obtain ⟨-, -, hr⟩ := h
            subst hr
            have := classBodyGo_length (b :: rest') none false hrec
            simp only [List.length_cons] at this ⊢
            omega
    · by_cases ha2 : a = ']'
      · subst ha2
        simp only [parseClass, reduceIte, if_neg ha] at h
        cases hrec : classBodyGo (some ']') false rest with
        | none => rw [hrec] at h; simp at h
        | some pr =>
          obtain ⟨items2, r⟩ := pr
          rw [hrec] at h
          simp only [Option.some.injEq, Prod.mk.injEq] at h
          obtain ⟨-, -, hr⟩ := h
          subst hr
          have := classBodyGo_length rest (some ']') false hrec
          simp only [List.length_cons]
          omega
      · simp only [parseClass, if_neg ha, if_neg ha2] at h
        cases hrec : classBodyGo none false (a :: rest) with
        | none => rw [hrec] at h; simp at h
        | some pr =>
          obtain ⟨items2, r⟩ := pr
          rw [hrec] at h
          simp only [Option.some.injEq, Prod.mk.injEq] at h
          obtain ⟨-, -, hr⟩ := h
          subst hr
          have := classBodyGo_length (a :: rest) none false hrec
          simp only [List.length_cons] at this ⊢
          omega

/-- Declarative glob semantics, following the specification's description of
pattern matching: `*` matches any run of characters (including separators),
`?` matches exactly one character, a bracket class matches a single character
from its set, every other character matches itself, and the whole string must
be consumed — full-string anchoring, no substring matching. -/
inductive GlobSem : Str → Str → Prop where
  | nil : GlobSem [] []
  | star (p run s : Str) : GlobSem p s → GlobSem ('*' :: p) (run ++ s)
  | one (p : Str) (c : Char) (s : Str) : GlobSem p s → GlobSem ('?' :: p) (c :: s)
  | cls (p : Str) (neg : Bool) (items : List (Char × Char)) (p' : Str) (c : Char) (s : Str) :
      parseClass p = some (neg, items, p') → (inClass items c != neg) = true →
      GlobSem p' s → GlobSem ('[' :: p) (c :: s)
  | clsLit (p s : Str) : parseClass p = none → GlobSem p s →
      GlobSem ('[' :: p) ('[' :: s)
  | lit (c : Char) (p s : Str) : c ≠ '*' → c ≠ '?' → c ≠ '[' → GlobSem p s →
      GlobSem (c :: p) (c :: s)

theorem globSem_nil_inv {s : Str} (h : GlobSem [] s) : s = [] := by
  cases h
  rfl

theorem globSem_star_inv {p s : Str} (h : GlobSem ('*' :: p) s) :
    ∃ run s₂, s = run ++ s₂ ∧ GlobSem p s₂ := by
  cases h
  case star => rename_i run s₂ hsem; exact ⟨run, s₂, rfl, hsem⟩
  case lit => rename_i hne1 hne2 hne3 hsem; exact absurd rfl hne1

theorem globSem_one_inv {p s : Str} (h : GlobSem ('?' :: p) s) :
    ∃ c s₂, s = c :: s₂ ∧ GlobSem p s₂ := by
  cases h
  case one => rename_i c s₂ hsem; exact ⟨c, s₂, rfl, hsem⟩
  case lit => rename_i hne1 hne2 hne3 hsem; exact absurd rfl hne2

theorem globSem_cls_inv {p : Str} {neg : Bool} {items : List (Char × Char)} {p' : Str} {s : Str}
    (hpc : parseClass p = some (neg, items, p')) (h : GlobSem ('[' :: p) s) :
    ∃ c s₂, s = c :: s₂ ∧ (inClass items c != neg) = true ∧ GlobSem p' s₂ := by
  cases h
  case cls =>
    rename_i neg2 items2 p2 c s₂ hin hsem hpc2
    rw [hpc] at hpc2
    simp only [Option.some.injEq, Prod.mk.injEq] at hpc2
    obtain ⟨e₁, e₂, e₃⟩ := hpc2
    subst e₁; subst e₂; subst e₃
    exact ⟨c, s₂, rfl, hin, hsem⟩
  case clsLit =>
    rename_i hnone hsem
    rw [hpc] at hnone
    simp at hnone
  case lit => rename_i hne1 hne2 hne3 hsem; exact absurd rfl hne3

theorem globSem_clsLit_inv {p s : Str} (hpc : parseClass p = none)
    (h : GlobSem ('[' :: p) s) : ∃ s₂, s = '[' :: s₂ ∧ GlobSem p s₂ := by
  cases h
  case cls =>
    rename_i neg2 items2 p2 c s₂ hin hsem hpc2
    rw [hpc] at hpc2
    simp at hpc2
  case clsLit => rename_i s₂ hnone hsem; exact ⟨s₂, rfl, hsem⟩
  case lit => rename_i hne1 hne2 hne3 hsem; exact absurd rfl hne3

theorem globSem_lit_inv {c : Char} {p s : Str}
    (h1 : c ≠ '*') (h2 : c ≠ '?') (h3 : c ≠ '[') (h : GlobSem (c :: p) s) :
    ∃ s₂, s = c :: s₂ ∧ GlobSem p s₂ := by
  cases h
  case star => exact absurd rfl h1
  case one => exact absurd rfl h2
  case cls => exact absurd rfl h3
  case clsLit => exact absurd rfl h3
  case lit => rename_i s₂ hne1 hne2 hne3 hsem; exact ⟨s₂, rfl, hsem⟩

theorem globMatchF_iff_globSem :
    ∀ (fuel : Nat) (p s : Str), p.length + s.length < fuel →
      (globMatchF fuel p s = true ↔ GlobSem p s) := by
  intro fuel
  induction fuel with
  | zero => intro p s h; omega
  | succ fuel ih =>
    intro p s hlen
    cases p with
    | nil =>
      cases s with
      | nil =>
        exact ⟨fun _ => GlobSem.nil, fun _ => rfl⟩
      | cons d s' =>
        simp only [globMatchF, List.isEmpty_cons, Bool.false_eq_true, false_iff]
        intro hg
        have := globSem_nil_inv hg
        simp at this
    | cons c p' =>
      simp only [List.length_cons] at hlen
      by_cases hstar : c = '*'
      · subst hstar
        cases s with
        | nil =>
          simp only [globMatchF, reduceIte, Bool.or_false]
          rw [ih p' [] (by simp only [List.length_nil]; omega)]
          constructor
          · intro hsem; exact GlobSem.star p' [] [] hsem
          · intro hg
            obtain ⟨run, s₂, heq, hsem⟩ := globSem_star_inv hg
            rcases List.append_eq_nil.mp heq.symm with ⟨hrun, hs₂⟩
            subst hrun; subst hs₂
            exact hsem
        | cons d s' =>
          simp only [List.length_cons] at hlen
          simp only [globMatchF, reduceIte]
          rw [Bool.or_eq_true]
          constructor
          · rintro (h1 | h2)
            · exact GlobSem.star p' [] (d :: s')
                ((ih p' (d :: s') (by simp only [List.length_cons]; omega)).mp h1)
            · obtain ⟨run, s₂, heq, hsem⟩ :=
                globSem_star_inv ((ih ('*' :: p') s'
                  (by simp only [List.length_cons]; omega)).mp h2)
              subst heq
              exact GlobSem.star p' (d :: run) s₂ hsem
          · intro hg
            obtain ⟨run, s₂, heq, hsem⟩ := globSem_star_inv hg
            cases run with
            | nil =>
              left
              simp only [List.nil_append] at heq
              exact (ih p' (d :: s') (by simp only [List.length_cons]; omega)).mpr
                (heq ▸ hsem)
            | cons r run' =>
              right
              rw [List.cons_append] at heq
              injection heq with hd hs
              subst hs
              refine (ih ('*' :: p') (run' ++ s₂) ?_).mpr (GlobSem.star p' run' s₂ hsem)
              simp only [List.length_cons, List.length_append] at hlen ⊢
              omega
      · by_cases hq : c = '?'
        · subst hq
          cases s with
          | nil =>
            simp only [globMatchF, reduceIte, if_neg (show ('?' : Char) ≠ '*' by decide),
              Bool.false_eq_true, false_iff]
            intro hg
            obtain ⟨c₂, s₂, heq, -⟩ := globSem_one_inv hg
            simp at heq
          | cons d s' =>
            simp only [List.length_cons] at hlen
            simp only [globMatchF, reduceIte, if_neg (show ('?' : Char) ≠ '*' by decide)]
            rw [ih p' s' (by omega)]
            constructor
            · intro hsem; exact GlobSem.one p' d s' hsem
            · intro hg
              obtain ⟨c₂, s₂, heq, hsem⟩ := globSem_one_inv hg
              injection heq with h1 h2
              subst h2
              exact hsem
        · by_cases hbr : c = '['
          · subst hbr
            cases hpc : parseClass p' with
            | some t =>
              obtain ⟨neg, items, p''⟩ := t
              have hplen := parseClass_length hpc
              cases s with
              | nil =>
                simp only [globMatchF, reduceIte, if_neg (show ('[' : Char) ≠ '*' by decide),
                  if_neg (show ('[' : Char) ≠ '?' by decide), hpc,
                  Bool.false_eq_true, false_iff]
                intro hg
                obtain ⟨c₂, s₂, heq, -, -⟩ := globSem_cls_inv hpc hg
                simp at heq
              | cons d s' =>
                simp only [List.length_cons] at hlen
                simp only [globMatchF, reduceIte, if_neg (show ('[' : Char) ≠ '*' by decide),
                  if_neg (show ('[' : Char) ≠ '?' by decide), hpc]
                rw [Bool.and_eq_true, ih p'' s' (by omega)]
                constructor
                · rintro ⟨hin, hsem⟩
                  exact GlobSem.cls p' neg items p'' d s' hpc hin hsem
                · intro hg
                  obtain ⟨c₂, s₂, heq, hin, hsem⟩ := globSem_cls_inv hpc hg
                  injection heq with h1 h2
                  subst h1; subst h2
                  exact ⟨hin, hsem⟩
            | none =>
              cases s with
              | nil =>
                simp only [globMatchF, reduceIte, if_neg (show ('[' : Char) ≠ '*' by decide),
                  if_neg (show ('[' : Char) ≠ '?' by decide), hpc,
                  Bool.false_eq_true, false_iff]
                intro hg
                obtain ⟨s₂, heq, -⟩ := globSem_clsLit_inv hpc hg
                simp at heq
              | cons d s' =>
                simp only [List.length_cons] at hlen
                by_cases hd : d = '['
                · subst hd
                  simp only [globMatchF, reduceIte, if_neg (show ('[' : Char) ≠ '*' by decide),
                    if_neg (show ('[' : Char) ≠ '?' by decide), hpc]
                  rw [ih p' s' (by omega)]
                  constructor
                  · intro hsem; exact GlobSem.clsLit p' s' hpc hsem
                  · intro hg
                    obtain ⟨s₂, heq, hsem⟩ := globSem_clsLit_inv hpc hg
                    injection heq with h1 h2
                    subst h2
                    exact hsem
                · simp only [globMatchF, reduceIte, if_neg (show ('[' : Char) ≠ '*' by decide),
                    if_neg (show ('[' : Char) ≠ '?' by decide), hpc, if_neg hd,
                    Bool.false_eq_true, false_iff]
                  intro hg
                  obtain ⟨s₂, heq, -⟩ := globSem_clsLit_inv hpc hg
                  injection heq with h1 h2
                  exact hd h1
          · cases s with
            | nil =>
              simp only [globMatchF, reduceIte, if_neg hstar, if_neg hq, if_neg hbr,
                Bool.false_eq_true, false_iff]
              intro hg
              obtain ⟨s₂, heq, -⟩ := globSem_lit_inv hstar hq hbr hg
              simp at heq
            | cons d s' =>
              simp only [List.length_cons] at hlen
              simp only [globMatchF, reduceIte, if_neg hstar, if_neg hq, if_neg hbr]
              by_cases hd : d = c
              · subst hd
                rw [if_pos rfl, ih p' s' (by omega)]
                constructor
                · intro hsem; exact GlobSem.lit d p' s' hstar hq hbr hsem
                · intro hg
                  obtain ⟨s₂, heq, hsem⟩ := globSem_lit_inv hstar hq hbr hg
                  injection heq with h1 h2
                  subst h2
                  exact hsem
              · rw [if_neg hd]
                simp only [Bool.false_eq_true, false_iff]
                intro hg
                obtain ⟨s₂, heq, -⟩ := globSem_lit_inv hstar hq hbr hg
                injection heq with h1 h2
                exact hd h1

/-- Soundness and completeness of the executable matcher against the
declarative glob semantics. -/
theorem globMatch_iff_globSem (p s : Str) : globMatch p s = true ↔ GlobSem p s :=
  globMatchF_iff_globSem (p.length + s.length + 1) p s (by omega)

/-! ### Packets, registries, dictionaries -/

variable {K V α E H : Type}

/-- The unit of transmission (`Device.publish` / `Device._receive_task`):
`{'event': ..., 'data': ...}`.  The data payload is abstract (`α`). -/
structure Packet (α : Type) where
  event : Str
  data : α
deriving DecidableEq

/-- An event registry: `defaultdict(list)` mapping a topic pattern to the
ordered list of registered handlers, in iteration order.  Handlers are
abstract (`H`); the `as_coroutine` normalisation is the identity at this
level of abstraction. -/
abbrev Registry (H : Type) := List (Str × List H)

/-- Lookup in a Python-`dict`-style association list. -/
def dictLookup [DecidableEq K] (k : K) : List (K × V) → Option V
  | [] => none
  | (k', v) :: rest => if k = k' then some v else dictLookup k rest

/-- Python `dict` assignment `m[k] = v`: replaces in place the value of an
existing key, otherwise appends the new binding. -/
def dictInsert [DecidableEq K] (k : K) (v : V) : List (K × V) → List (K × V)
  | [] => [(k, v)]
  | (k', v') :: rest =>
    if k = k' then (k, v) :: rest
    else (k', v') :: dictInsert k v rest

/-- Append-registration (`Device.on`): `self.events[event].append(coro)` on a
`defaultdict(list)` — appends to the handler list of an existing key, or adds
the key at the end with a singleton list. -/
def registryAdd (event : Str) (cb : H) : Registry H → Registry H
  | [] => [(event, [cb])]
  | (k, cbs) :: rest =>
    if event = k then (k, cbs ++ [cb]) :: rest
    else (k, cbs) :: registryAdd event cb rest

/-! ### Dispatch -/

/-- One packet's dispatch against the network-facing registry
(`Device._receive_task`, lines 96–101): every `(key, callbacks)` pair whose
pattern glob-matches the event (`fnmatch(event, key)`) gets all of its
callbacks scheduled, in registry order, as `loop.create_task(callback(event,
data))` calls. -/
def dispatchNetwork (events : Registry H) (event : Str) (data : α) : List (H × Str × α) :=
  match events with
  | [] => []
  | (key, callbacks) :: rest =>
    (if globMatch key event then callbacks.map fun cb => (cb, event, data) else []) ++
      dispatchNetwork rest event data

/-- One packet's dispatch against a serial transport's private registry
(`Device._serial_read_task`, lines 108–111): `if event in ser.events:` then
schedule every callback in `ser.events[event]` — an exact-key dictionary
lookup, with no pattern matching. -/
def dispatchSerial (events : Registry H) (event : Str) (data : α) : List (H × Str × α) :=
  match dictLookup event events with
  | some callbacks => callbacks.map fun cb => (cb, event, data)
  | none => []

/-- The receive loop (`Device._receive_task`) over a finite inbound packet
stream: each iteration dispatches one packet through `dispatchNetwork`,
creating fire-and-forget tasks; the loop never awaits a handler.  To reason
about handler failures, each scheduled invocation is run against an
`outcome` function and the failures are collected on the side — the loop
itself never inspects them. -/
def receiveLoop (outcome : H → Str → α → Except E Unit) (events : Registry H) :
    List (Packet α) → List (H × Str × α) × List E
  | [] => ([], [])
  | pkt :: rest =>
    let scheduled := dispatchNetwork events pkt.event pkt.data
    let errs := scheduled.filterMap fun t =>
      match outcome t.1 t.2.1 t.2.2 with
      | Except.error e => some e
      | Except.ok _ => none
    let res := receiveLoop outcome events rest
    (scheduled ++ res.1, errs ++ res.2)

/-! ### The Device -/

/-- Modelled from the spec: the serial transport (`SerialDevice`,
`robocluster/serial.py`, which is not among the sources) — constructed from
a device path and an encoding identifier, bound to an event loop, and
carrying its own private event registry, per §6 of the specification and
the fields `device.py` uses (`usb_path`, `_loop`, `events`).  Event loops
are identified abstractly by `Nat`. -/
structure SerialDevice (H : Type) where
  usb_path : Str
  encoding : Str
  loop : Nat
  events : Registry H
deriving DecidableEq

/-- The `Device` state (`Device.__init__`): `name`, the `events` registry,
the event loop (`_loop`, identified abstractly), the outbound queue
(`_send_queue`), the trace of packets handed to the network transport's
`send` (written only by the send loop), the serial-transport registry
(`_serial_devices`), the background-thread handle (`_thread`, modelled as
`Bool`: set or `None`), and the number of tasks created on the loop
(`loop.create_task` calls). -/
structure Device (α H : Type) where
  name : Str
  events : Registry H
  loop : Nat
  sendQueue : List (Packet α)
  sent : List (Packet α)
  serialDevices : List (Str × SerialDevice H)
  thread : Bool
  loopTasks : Nat
deriving DecidableEq

/-- `Device.__init__`: fresh device with empty registries and queues and no
execution thread (`self._thread = None`). -/
def initDevice (name : Str) (loop : Nat) : Device α H :=
  { name := name, events := [], loop := loop, sendQueue := [], sent := [],
    serialDevices := [], thread := false, loopTasks := 0 }

/-- `Device.publish(topic, data)` (lines 46–52): builds the packet
`{'event': '{}/{}'.format(self.name, topic), 'data': data}` and puts it on
`self._send_queue`.  No network I/O happens here: the `sent` trace is
untouched; only the queue grows. -/
def publish (d : Device α H) (topic : Str) (data : α) : Device α H :=
  { d with
    sendQueue := d.sendQueue ++ [{ event := d.name ++ '/' :: topic, data := data }] }

/-- `Device.on(event)`: registers the (coroutine-normalised) callback under
the pattern `event` in `self.events`.  (`on` is a reserved token in Lean, so
the definition is named `onEvent`.) -/
def onEvent (d : Device α H) (event : Str) (callback : H) : Device α H :=
  { d with events := registryAdd event callback d.events }

/-- `Device.task(task)`: `self._loop.create_task(coro())` — creates one
background task on the loop. -/
def task (d : Device α H) : Device α H :=
  { d with loopTasks := d.loopTasks + 1 }

/-- `Device.every(duration)`: wraps the function in the `_wrapper` loop and
hands it to `self.task` — one background task is created. -/
def every (d : Device α H) : Device α H :=
  task d

/-- `Device.sleep(duration)`: returns `asyncio.sleep` on the device's loop;
no device state changes. -/
def sleep (d : Device α H) : Device α H := d

/-- `Device.wait()`: joins the thread if there is one; no state changes. -/
def wait (d : Device α H) : Device α H := d

/-- `Device.link_serial(serial_device)` (lines 113–116): overwrites the
transport's event-loop field with the device's own loop, then stores the
transport in `self._serial_devices` under its `usb_path` key. -/
def link_serial (d : Device α H) (s : SerialDevice H) : Device α H × SerialDevice H :=
  let s' : SerialDevice H := { s with loop := d.loop }
  ({ d with serialDevices := dictInsert s.usb_path s' d.serialDevices }, s')

/-- `Device.create_serial(usb_path, encoding)` (lines 118–125): constructs a
fresh `SerialDevice` on the device's loop and stores it under `usb_path`. -/
def create_serial (d : Device α H) (usb_path encoding : Str) :
    Device α H × SerialDevice H :=
  let s : SerialDevice H :=
    { usb_path := usb_path, encoding := encoding, loop := d.loop, events := [] }
  ({ d with serialDevices := dictInsert usb_path s d.serialDevices }, s)

/-- `Device.start()` (lines 127–132): raises `RuntimeError('device already
running')` when `self._thread` is set; otherwise spawns the execution thread,
whose `_thread_target` schedules the send loop, the receive loop, and one
read loop per attached serial transport. -/
def start (d : Device α H) : Except String (Device α H) :=
  if d.thread then Except.error "device already running"
  else
    Except.ok { d with thread := true,
                       loopTasks := d.loopTasks + 2 + d.serialDevices.length }

/-- `Device.stop()` (lines 164–170): raises `RuntimeError('device not
running')` when `self._thread` is not set; otherwise stops the loop, joins
the thread and clears `self._thread`. -/
def stop (d : Device α H) : Except String (Device α H) :=
  if d.thread then Except.ok { d with thread := false }
  else Except.error "device not running"

/-! ### The send loop -/

/-- One iteration of `Device._send_task` (lines 86–90) when the queue is
non-empty: dequeue the head packet and hand it to `self._sender.send`,
awaiting completion (appending to the `sent` trace) before the next
iteration.  With an empty queue the iteration suspends in
`await self._send_queue.get()` and nothing changes. -/
def sendStep (d : Device α H) : Device α H :=
  match d.sendQueue with
  | [] => d
  | p :: rest => { d with sendQueue := rest, sent := d.sent ++ [p] }

/-- `n` iterations of the send loop. -/
def sendRun (d : Device α H) : Nat → Device α H
  | 0 => d
  | n + 1 => sendRun (sendStep d) n

/-- A sequence of `publish` calls. -/
def publishAll (d : Device α H) : List (Str × α) → Device α H
  | [] => d
  | (t, x) :: rest => publishAll (publish d t x) rest

/-! ### Serial attachments -/

/-- A serial attachment: `create_serial(path, encoding)` or
`link_serial(device)`. -/
inductive AttachOp (H : Type) where
  | create (usb_path encoding : Str)
  | link (dev : SerialDevice H)

/-- The path key an attachment stores under. -/
def attachPath : AttachOp H → Str
  | .create p _ => p
  | .link s => s.usb_path

/-- The transport an attachment stores, given the device's loop. -/
def attachTransport (loop : Nat) : AttachOp H → SerialDevice H
  | .create p e => { usb_path := p, encoding := e, loop := loop, events := [] }
  | .link s => { s with loop := loop }

/-- Apply one attachment to a device. -/
def applyAttach (d : Device α H) : AttachOp H → Device α H
  | .create p e => (create_serial d p e).1
  | .link s => (link_serial d s).1

/-- Apply a sequence of attachments, left to right. -/
def applyAttaches (d : Device α H) : List (AttachOp H) → Device α H
  | [] => d
  | op :: ops => applyAttaches (applyAttach d op) ops

/-- The transport stored by the most recent attachment at path `p`, if any
(later operations win). -/
def lastAttachment (loop : Nat) : List (AttachOp H) → Str → Option (SerialDevice H)
  | [], _ => none
  | op :: ops, p =>
    match lastAttachment loop ops p with
    | some s => some s
    | none => if attachPath op = p then some (attachTransport loop op) else none

/-! ### Periodic-task timing -/

/-- Start time of the `k`-th invocation (0-based) of the `_wrapper` loop that
`Device.every(duration)` schedules, given the normalised period `D` (seconds)
and the duration `t k` of the `k`-th run of the wrapped function: `_wrapper`
awaits the function's coroutine, then `await self.sleep(duration)`, then
repeats. -/
def invokeStart (D : ℚ) (t : Nat → ℚ) : Nat → ℚ
  | 0 => 0
  | k + 1 => invokeStart D t k + t k + D

/-- Completion time of the `k`-th invocation of a periodic task. -/
def invokeEnd (D : ℚ) (t : Nat → ℚ) (k : Nat) : ℚ :=
  invokeStart D t k + t k

/-! ### Dictionary lemmas -/

theorem dictLookup_dictInsert [DecidableEq K] (k k' : K) (v : V) (m : List (K × V)) :
    dictLookup k' (dictInsert k v m) = if k' = k then some v else dictLookup k' m := by
  induction m with
  | nil => simp [dictInsert, dictLookup]
  | cons kv rest ih =>
    obtain ⟨k₀, v₀⟩ := kv
    by_cases h : k = k₀
    · subst h
      by_cases h2 : k' = k <;> simp [dictInsert, dictLookup, h2]
    · by_cases h2 : k' = k₀
      · subst h2
        have h3 : ¬k' = k := fun he => h (he.symm)
        simp [dictInsert, dictLookup, if_neg h, h3]
      · simp [dictInsert, dictLookup, if_neg h, h2, ih]

theorem mem_keys_dictInsert [DecidableEq K] (x k : K) (v : V) (m : List (K × V)) :
    x ∈ (dictInsert k v m).map Prod.fst ↔ x = k ∨ x ∈ m.map Prod.fst := by
  induction m with
  | nil => simp [dictInsert]
  | cons kv rest ih =>
    obtain ⟨k₀, v₀⟩ := kv
    by_cases h : k = k₀
    · subst h
      simp [dictInsert]
    · simp only [dictInsert, if_neg h, List.map_cons, List.mem_cons, ih]
      tauto

theorem dictInsert_keys_nodup [DecidableEq K] (k : K) (v : V) (m : List (K × V))
    (h : (m.map Prod.fst).Nodup) : ((dictInsert k v m).map Prod.fst).Nodup := by
  induction m with
  | nil => simp [dictInsert]
  | cons kv rest ih =>
    obtain ⟨k₀, v₀⟩ := kv
    simp only [List.map_cons, List.nodup_cons] at h
    obtain ⟨hk₀, hrest⟩ := h
    by_cases hk : k = k₀
    · subst hk
      have hins : dictInsert k v ((k, v₀) :: rest) = (k, v) :: rest := by
        simp [dictInsert]
      rw [hins, List.map_cons, List.nodup_cons]
      exact ⟨hk₀, hrest⟩
    · simp only [dictInsert, if_neg hk, List.map_cons, List.nodup_cons]
      refine ⟨?_, ih hrest⟩
      intro hmem
      rcases (mem_keys_dictInsert k₀ k v rest).mp hmem with heq | hmem'
      · exact hk heq.symm
      · exact hk₀ hmem'

theorem nodup_keys_filter_le_one [DecidableEq K] (m : List (K × V)) (p : K)
    (h : (m.map Prod.fst).Nodup) :
    (m.filter fun kv => decide (kv.1 = p)).length ≤ 1 := by
  induction m with
  | nil => simp
  | cons kv rest ih =>
    obtain ⟨k₀, v₀⟩ := kv
    simp only [List.map_cons, List.nodup_cons] at h
    obtain ⟨hk₀, hrest⟩ := h
    by_cases hp : k₀ = p
    · subst hp
      have hnil : (rest.filter fun kv => decide (kv.1 = k₀)) = [] := by
        rw [List.filter_eq_nil_iff]
        intro a ha
        simp only [decide_eq_true_eq]
        intro heq
        exact hk₀ (heq ▸ List.mem_map_of_mem Prod.fst ha)
      simp [List.filter_cons, hnil]
    · simp [List.filter_cons, hp, ih hrest]

/-! ### Dispatch lemmas and claims C1, C2, C9 -/

theorem mem_dispatchNetwork (events : Registry H) (e : Str) (x : α) (cb : H) :
    (cb, e, x) ∈ dispatchNetwork events e x ↔
      ∃ key cbs, (key, cbs) ∈ events ∧ globMatch key e = true ∧ cb ∈ cbs := by
  induction events with
  | nil => simp [dispatchNetwork]
  | cons kv rest ih =>
    obtain ⟨key, cbs⟩ := kv
    constructor
    · intro hmem
      rcases List.mem_append.mp hmem with h1 | h2
      · by_cases hm : globMatch key e = true
        · rw [if_pos hm] at h1
          obtain ⟨cb', hcb', heq⟩ := List.mem_map.mp h1
          injection heq with hcb heq'
          subst hcb
          exact ⟨key, cbs, List.mem_cons_self _ _, hm, hcb'⟩
        · rw [if_neg hm] at h1
          cases h1
      · obtain ⟨key', cbs', hmem', hm, hcb⟩ := ih.mp h2
        exact ⟨key', cbs', List.mem_cons_of_mem _ hmem', hm, hcb⟩
    · rintro ⟨key', cbs', hmem', hm, hcb⟩
      rcases List.mem_cons.mp hmem' with heq | hmem''
      · injection heq with h1 h2
        subst h1; subst h2
        refine List.mem_append.mpr (Or.inl ?_)
        rw [if_pos hm]
        exact List.mem_map.mpr ⟨cb, hcb, rfl⟩
      · exact List.mem_append.mpr (Or.inr (ih.mpr ⟨key', cbs', hmem'', hm, hcb⟩))

/-- C2: for every event string received on the network path, a handler is
scheduled on `(event, data)` if and only if the whole event string matches
its registered pattern under shell-glob semantics (`*` any run of
characters, `?` exactly one, bracket classes one character from a set,
full-string anchoring), and for each matching pattern every handler in its
list is scheduled. -/
theorem network_dispatch_iff_glob (events : Registry H) (e : Str) (x : α) (cb : H) :
    (cb, e, x) ∈ dispatchNetwork events e x ↔
      ∃ key cbs, (key, cbs) ∈ events ∧ GlobSem key e ∧ cb ∈ cbs := by
  rw [mem_dispatchNetwork]
  constructor
  · rintro ⟨key, cbs, hmem, hm, hcb⟩
    exact ⟨key, cbs, hmem, (globMatch_iff_globSem key e).mp hm, hcb⟩
  · rintro ⟨key, cbs, hmem, hsem, hcb⟩
    exact ⟨key, cbs, hmem, (globMatch_iff_globSem key e).mpr hsem, hcb⟩

/-- C1 counterexample: on a serial transport the event `nav/heading`
glob-matches the registered pattern `nav/*`, yet the handler registered
under `nav/*` in the transport's private registry is not scheduled — serial
dispatch is an exact-key lookup (`if event in ser.events`), not glob
matching. -/
theorem serial_dispatch_not_glob :
    GlobSem "nav/*".toList "nav/heading".toList ∧
      (((0 : Nat), "nav/heading".toList, (0 : Nat)) ∉
        dispatchSerial [("nav/*".toList, [0])] "nav/heading".toList (0 : Nat)) := by
  constructor
  · exact (globMatch_iff_globSem _ _).mp (by decide)
  · decide

/-- C1 (amended): for every packet read from an attached serial transport, a
handler registered on that transport's private event registry under pattern
`p` is scheduled if and only if the packet's event string is exactly equal
to `p` (dictionary-key equality, not glob matching). -/
theorem serial_dispatch_iff_exact (events : Registry H) (e : Str) (x : α) (cb : H) :
    (cb, e, x) ∈ dispatchSerial events e x ↔
      ∃ cbs, dictLookup e events = some cbs ∧ cb ∈ cbs := by
  unfold dispatchSerial
  cases h : dictLookup e events with
  | none => simp
  | some cbs =>
    simp only [List.mem_map, Option.some.injEq]
    constructor
    · rintro ⟨cb', hcb', heq⟩
      injection heq with h1 h2
      subst h1
      exact ⟨cbs, rfl, hcb'⟩
    · rintro ⟨cbs', hcbs', hcb⟩
      subst hcbs'
      exact ⟨cb, hcb, rfl⟩

/-- C9: handler failures are isolated per invocation — the set of scheduled
handler invocations is the same for any two outcome assignments (a failure
inside a handler never propagates to the dispatch loop and the loop never
waits on a handler), and dispatch is compositional over the packet stream
(failures while handling earlier packets never prevent dispatch of later
packets or of sibling handlers). -/
theorem handler_failures_isolated (events : Registry H)
    (o₁ o₂ : H → Str → α → Except E Unit) (pkts pkts₁ pkts₂ : List (Packet α)) :
    (receiveLoop o₁ events pkts).1 = (receiveLoop o₂ events pkts).1 ∧
    (receiveLoop o₁ events (pkts₁ ++ pkts₂)).1
      = (receiveLoop o₁ events pkts₁).1 ++ (receiveLoop o₁ events pkts₂).1 := by
  constructor
  · induction pkts with
    | nil => rfl
    | cons pkt rest ih => simp only [receiveLoop, ih]
  · induction pkts₁ with
    | nil => simp [receiveLoop]
    | cons pkt rest ih =>
      simp only [List.cons_append, receiveLoop, List.append_eq, ih, List.append_assoc]

/-! ### Claim C3: publish -/

/-- C3: `publish(topic, data)` constructs exactly one packet whose event is
the device name, `/`, and the topic concatenated and whose data is `data`,
appends it to the outbound FIFO queue (so it is visible to the send loop
when the call completes), and performs no network I/O and changes nothing
else: the `sent` trace and every other field are untouched. -/
theorem publish_enqueues_one_packet (d : Device α H) (topic : Str) (x : α) :
    (publish d topic x).sendQueue
        = d.sendQueue ++ [{ event := d.name ++ '/' :: topic, data := x }] ∧
    (publish d topic x).sent = d.sent ∧
    (publish d topic x).name = d.name ∧
    (publish d topic x).events = d.events ∧
    (publish d topic x).loop = d.loop ∧
    (publish d topic x).serialDevices = d.serialDevices ∧
    (publish d topic x).thread = d.thread ∧
    (publish d topic x).loopTasks = d.loopTasks :=
  ⟨rfl, rfl, rfl, rfl, rfl, rfl, rfl, rfl⟩

/-! ### Claim C10: link_serial frame -/

/-- C10: `link_serial` overwrites the passed transport's event-loop field
with the device's own loop and stores the updated transport in the registry
under its path key; no other field of the transport and no other field of
the device changes. -/
theorem link_serial_frame (d : Device α H) (s : SerialDevice H) :
    (link_serial d s).2.loop = d.loop ∧
    (link_serial d s).2.usb_path = s.usb_path ∧
    (link_serial d s).2.encoding = s.encoding ∧
    (link_serial d s).2.events = s.events ∧
    (link_serial d s).1.serialDevices
      = dictInsert s.usb_path (link_serial d s).2 d.serialDevices ∧
    dictLookup s.usb_path (link_serial d s).1.serialDevices = some (link_serial d s).2 ∧
    (link_serial d s).1.name = d.name ∧
    (link_serial d s).1.events = d.events ∧
    (link_serial d s).1.loop = d.loop ∧
    (link_serial d s).1.sendQueue = d.sendQueue ∧
    (link_serial d s).1.sent = d.sent ∧
    (link_serial d s).1.thread = d.thread ∧
    (link_serial d s).1.loopTasks = d.loopTasks := by
  refine ⟨rfl, rfl, rfl, rfl, rfl, ?_, rfl, rfl, rfl, rfl, rfl, rfl, rfl⟩
  show dictLookup s.usb_path
      (dictInsert s.usb_path { s with loop := d.loop } d.serialDevices) = _
  rw [dictLookup_dictInsert, if_pos rfl]
  rfl

/-! ### Claim C4: send loop FIFO -/

theorem sendRun_spec (n : Nat) :
    ∀ d : Device α H, n ≤ d.sendQueue.length →
      (sendRun d n).sent = d.sent ++ d.sendQueue.take n ∧
      (sendRun d n).sendQueue = d.sendQueue.drop n ∧
      (sendRun d n).name = d.name ∧
      (sendRun d n).thread = d.thread := by
  induction n with
  | zero => intro d h; simp [sendRun]
  | succ n ih =>
    intro d h
    cases hq : d.sendQueue with
    | nil => rw [hq] at h; simp at h
    | cons p rest =>
      have hstep : sendStep d = { d with sendQueue := rest, sent := d.sent ++ [p] } := by
        simp [sendStep, hq]
      have hlen : n ≤ rest.length := by
        rw [hq] at h; simp only [List.length_cons] at h; omega
      rw [sendRun, hstep]
      obtain ⟨h1, h2, h3, h4⟩ := ih { d with sendQueue := rest, sent := d.sent ++ [p] } hlen
      refine ⟨?_, ?_, h3, h4⟩
      · rw [h1]
        simp [List.append_assoc]
      · rw [h2]
        simp

theorem publishAll_spec (items : List (Str × α)) :
    ∀ d : Device α H,
      (publishAll d items).sendQueue
        = d.sendQueue ++ items.map (fun tx =>
            ({ event := d.name ++ '/' :: tx.1, data := tx.2 } : Packet α)) ∧
      (publishAll d items).sent = d.sent ∧
      (publishAll d items).name = d.name ∧
      (publishAll d items).thread = d.thread := by
  induction items with
  | nil => intro d; simp [publishAll]
  | cons tx rest ih =>
    intro d
    obtain ⟨t, x⟩ := tx
    obtain ⟨h1, h2, h3, h4⟩ := ih (publish d t x)
    rw [publishAll]
    refine ⟨?_, h2, h3, h4⟩
    rw [h1]
    simp [publish, List.append_assoc]

/-- C4: publishing `N` packets (with no induced delay) and then running the
send loop invokes the network transport's send operation exactly `N` times,
once per packet, in publish order; the loop dequeues in strict FIFO order
and completes each send before dequeuing the next, so after `k ≤ N` loop
iterations exactly the first `k` packets have been sent. -/
theorem send_loop_fifo (d : Device α H) (items : List (Str × α))
    (hq : d.sendQueue = []) :
    ((sendRun (publishAll d items) items.length).sent
        = d.sent ++ items.map (fun tx =>
            ({ event := d.name ++ '/' :: tx.1, data := tx.2 } : Packet α))) ∧
    (sendRun (publishAll d items) items.length).sendQueue = [] ∧
    (∀ k, k ≤ items.length →
      (sendRun (publishAll d items) k).sent
        = d.sent ++ (items.map (fun tx =>
            ({ event := d.name ++ '/' :: tx.1, data := tx.2 } : Packet α))).take k) := by
  obtain ⟨hsq, hsent, hname, -⟩ := publishAll_spec items d
  rw [hq] at hsq
  simp only [List.nil_append] at hsq
  have hlen : items.length ≤ (publishAll d items).sendQueue.length := by
    rw [hsq]; simp
  refine ⟨?_, ?_, ?_⟩
  · obtain ⟨h1, -, -, -⟩ := sendRun_spec items.length (publishAll d items) hlen
    rw [h1, hsq, hsent]
    simp
  · obtain ⟨-, h2, -, -⟩ := sendRun_spec items.length (publishAll d items) hlen
    rw [h2, hsq]
    simp
  · intro k hk
    obtain ⟨h1, -, -, -⟩ := sendRun_spec k (publishAll d items)
      (by rw [hsq]; simp only [List.length_map]; omega)
    rw [h1, hsq, hsent]

theorem send_loop_fifo_witness :
    (sendRun (publishAll (initDevice ['n'] 0 : Device Nat Nat)
        [(['a'], 1), (['b'], 2)]) 2).sent
      = [{ event := ['n', '/', 'a'], data := 1 }, { event := ['n', '/', 'b'], data := 2 }] := by
  have h := (send_loop_fifo (initDevice ['n'] 0 : Device Nat Nat)
    [(['a'], 1), (['b'], 2)] rfl).1
  simpa using h

/-! ### Claims C5 and C6: lifecycle -/

/-- C5: `start()` errors with "device already running" whenever the device
is not stopped (in particular every `start()` after a successful `start()`
with no intervening `stop()`), and `stop()` errors with "device not running"
whenever the device is stopped (in particular before any `start()`); both
errors are returned synchronously to the caller of that call alone. -/
theorem lifecycle_errors (d : Device α H) :
    (d.thread = true → start d = Except.error "device already running") ∧
    (d.thread = false → ∃ d', start d = Except.ok d' ∧
        start d' = Except.error "device already running") ∧
    (d.thread = false → stop d = Except.error "device not running") := by
  refine ⟨?_, ?_, ?_⟩
  · intro ht; simp [start, ht]
  · intro ht
    have hok : start d = Except.ok { d with thread := true, loopTasks := d.loopTasks + 2 + d.serialDevices.length } := by
      simp [start, ht]
    exact ⟨_, hok, by simp [start]⟩
  · intro ht; simp [stop, ht]

theorem lifecycle_errors_witness :
    ((initDevice ['d'] 0 : Device Nat Nat).thread = false) ∧
    stop (initDevice ['d'] 0 : Device Nat Nat) = Except.error "device not running" :=
  ⟨rfl, (lifecycle_errors (initDevice ['d'] 0 : Device Nat Nat)).2.2 rfl⟩

/-- C6: the execution-thread handle is unset exactly when the device is not
started: unset at construction, set by a successful `start()`, cleared by a
successful `stop()`, and untouched by every other public operation
(`publish`, `on`, `task`, `every`, `sleep`, `wait`, `create_serial`,
`link_serial`). -/
theorem thread_handle_invariant :
    (∀ (nm : Str) (lp : Nat), (initDevice nm lp : Device α H).thread = false) ∧
    (∀ d d' : Device α H, start d = Except.ok d' → d.thread = false ∧ d'.thread = true) ∧
    (∀ d d' : Device α H, stop d = Except.ok d' → d.thread = true ∧ d'.thread = false) ∧
    (∀ (d : Device α H) (topic : Str) (x : α), (publish d topic x).thread = d.thread) ∧
    (∀ (d : Device α H) (ev : Str) (cb : H), (onEvent d ev cb).thread = d.thread) ∧
    (∀ d : Device α H, (task d).thread = d.thread) ∧
    (∀ d : Device α H, (every d).thread = d.thread) ∧
    (∀ d : Device α H, (sleep d).thread = d.thread) ∧
    (∀ d : Device α H, (wait d).thread = d.thread) ∧
    (∀ (d : Device α H) (p e : Str), ((create_serial d p e).1).thread = d.thread) ∧
    (∀ (d : Device α H) (s : SerialDevice H), ((link_serial d s).1).thread = d.thread) := by
  refine ⟨fun _ _ => rfl, ?_, ?_, fun _ _ _ => rfl, fun _ _ _ => rfl, fun _ => rfl,
    fun _ => rfl, fun _ => rfl, fun _ => rfl, fun _ _ _ => rfl, fun _ _ => rfl⟩
  · intro d d' h
    by_cases ht : d.thread = true
    · simp [start, ht] at h
    · simp [start, ht] at h
      refine ⟨by simpa using ht, ?_⟩
      rw [← h]
  · intro d d' h
    by_cases ht : d.thread = true
    · simp [stop, ht] at h
      refine ⟨ht, ?_⟩
      rw [← h]
    · simp [stop, ht] at h

theorem thread_handle_invariant_witness :
    start (initDevice ['d'] 0 : Device Nat Nat)
        = Except.ok { initDevice ['d'] 0 with thread := true, loopTasks := 2 } ∧
    ((initDevice ['d'] 0 : Device Nat Nat).thread = false ∧
      ({ initDevice ['d'] 0 with thread := true, loopTasks := 2 } : Device Nat Nat).thread
        = true) :=
  ⟨rfl, (thread_handle_invariant (α := Nat) (H := Nat)).2.1 _ _ rfl⟩

/-! ### Claim C7: periodic-task timing -/

/-- C7: the loop scheduled for a periodic task registered with period `D`
repeats: invoke the function, await its completion, then suspend for `D`.
Consequently the (k+1)-th invocation begins exactly `D` after the k-th one
completes (hence never earlier than `D` after it), and two invocations of
the same periodic task never overlap. -/
theorem periodic_task_serialized (D : ℚ) (t : Nat → ℚ) (hD : 0 ≤ D)
    (ht : ∀ k, 0 ≤ t k) :
    (∀ k, invokeStart D t (k + 1) = invokeEnd D t k + D) ∧
    (∀ j k, j < k → invokeEnd D t j + D ≤ invokeStart D t k) := by
  have hstep : ∀ k, invokeStart D t (k + 1) = invokeEnd D t k + D := fun k => rfl
  refine ⟨hstep, ?_⟩
  intro j k hjk
  induction k with
  | zero => omega
  | succ k ih =>
    rcases Nat.lt_succ_iff_lt_or_eq.mp hjk with hlt | heq
    · have h1 := ih hlt
      have h2 : invokeStart D t k ≤ invokeStart D t (k + 1) := by
        rw [hstep k]
        unfold invokeEnd
        have := ht k
        linarith
      linarith
    · subst heq
      rw [hstep j]

theorem periodic_task_serialized_witness :
    invokeStart 1 (fun _ => 1) 1 = invokeEnd 1 (fun _ => 1) 0 + 1 ∧
    invokeEnd 1 (fun _ => 1) 0 + 1 ≤ invokeStart 1 (fun _ => 1) 2 :=
  ⟨(periodic_task_serialized 1 (fun _ => 1) (by norm_num) (fun _ => by norm_num)).1 0,
   (periodic_task_serialized 1 (fun _ => 1) (by norm_num)
      (fun _ => by norm_num)).2 0 2 (by norm_num)⟩

/-! ### Claim C8: serial-transport registry -/

theorem applyAttach_fields (d : Device α H) (op : AttachOp H) :
    (applyAttach d op).loop = d.loop ∧
    (applyAttach d op).serialDevices
      = dictInsert (attachPath op) (attachTransport d.loop op) d.serialDevices := by
  cases op with
  | create p e => exact ⟨rfl, rfl⟩
  | link s => exact ⟨rfl, rfl⟩

theorem applyAttaches_lookup (ops : List (AttachOp H)) :
    ∀ (d : Device α H) (p : Str),
      dictLookup p (applyAttaches d ops).serialDevices
        = match lastAttachment d.loop ops p with
          | some s => some s
          | none => dictLookup p d.serialDevices := by
  induction ops with
  | nil => intro d p; simp [applyAttaches, lastAttachment]
  | cons op ops ih =>
    intro d p
    have h0 : applyAttaches d (op :: ops) = applyAttaches (applyAttach d op) ops := rfl
    rw [h0, ih (applyAttach d op) p, (applyAttach_fields d op).1, lastAttachment]
    cases hlast : lastAttachment d.loop ops p with
    | some s => rfl
    | none =>
      show dictLookup p (applyAttach d op).serialDevices
          = match (if attachPath op = p then some (attachTransport d.loop op) else none) with
            | some s => some s
            | none => dictLookup p d.serialDevices
      rw [(applyAttach_fields d op).2, dictLookup_dictInsert]
      by_cases hp : attachPath op = p
      · rw [if_pos hp.symm, if_pos hp]
      · rw [if_neg (fun he : p = attachPath op => hp he.symm), if_neg hp]

theorem applyAttaches_keys_nodup (ops : List (AttachOp H)) :
    ∀ d : Device α H, (d.serialDevices.map Prod.fst).Nodup →
      ((applyAttaches d ops).serialDevices.map Prod.fst).Nodup := by
  induction ops with
  | nil => intro d h; exact h
  | cons op ops ih =>
    intro d h
    exact ih _ (by rw [(applyAttach_fields d op).2]; exact dictInsert_keys_nodup _ _ _ h)

/-- C8: after any sequence of attach (`create_serial`) and link
(`link_serial`) operations, the serial-transport registry holds at most one
entry keyed by any path `p`, and that entry is the transport stored by the
most recent attachment at `p` — a later attachment at the same path replaces
the stored transport wholesale. -/
theorem serial_registry_last_wins (nm : Str) (lp : Nat) (ops : List (AttachOp H)) (p : Str) :
    (((applyAttaches (initDevice nm lp : Device α H) ops).serialDevices.map Prod.fst).Nodup) ∧
    (((applyAttaches (initDevice nm lp : Device α H) ops).serialDevices.filter
        fun kv => decide (kv.1 = p)).length ≤ 1) ∧
    dictLookup p (applyAttaches (initDevice nm lp : Device α H) ops).serialDevices
      = lastAttachment lp ops p := by
  have hnodup := applyAttaches_keys_nodup ops (initDevice nm lp : Device α H)
    (by simp [initDevice])
  refine ⟨hnodup, nodup_keys_filter_le_one _ _ hnodup, ?_⟩
  rw [applyAttaches_lookup ops (initDevice nm lp) p]
  show (match lastAttachment lp ops p with
        | some s => some s
        | none => dictLookup p (initDevice nm lp : Device α H).serialDevices)
      = lastAttachment lp ops p
  cases hlast : lastAttachment lp ops p with
  | some s => rfl
  | none => rfl


end Robocluster
